import Mathlib

/-!
Verification of the `scrape` repository: a BoltDB-backed typed key-value
store (`kvstore.go`, derived from skv), an in-memory dedup cache with
TTL eviction (`cleanKeys`), and a poll loop (`get`/`scrape`).

The store is embedded shallowly: a `KVStore` is a list of named buckets,
each bucket a list of (key, bytes) entries kept in ascending key order
(BoltDB buckets are B-trees, so their cursors iterate keys in byte order).
The gob encoding layer is modelled by an injective, self-describing codec
`gobEncode`/`gobDecode` on a small universe `GoValue` of Go values; the
codec fails on values gob cannot encode (modelled by the `vChan`
constructor, standing for channel/function values).

BoltDB behaviour relevant to the claims is modelled faithfully:
`tx.Bucket(name)` returns nil when the bucket does not exist, and calling
`.Cursor()` on that nil pointer dereferences it (a runtime panic, modelled
by the `panicNilBucket` results); `Bucket.Put` rejects an empty key with
`ErrKeyRequired`, and `db.Update` aborts the transaction when the inner
function returns an error. BoltDB's maximum key/value sizes are not
modelled (keys in this repository are short identifier strings).
-/

/-- Decision procedure for the byte-wise string order that reduces inside
the kernel (the registered iterator-based one does not), so that concrete
stores can be evaluated by `decide`. The ordering relation itself is
unchanged. -/
instance (priority := 2000) strDecLT (a b : String) : Decidable (a < b) :=
  decidable_of_iff (a.data < b.data) String.lt_iff_toList_lt.symm

/-- Kernel-reducible decision procedure for `≤` on strings (which is
defined as the negation of the reversed `<`). -/
instance (priority := 2000) strDecLE (a b : String) : Decidable (a ≤ b) :=
  inferInstanceAs (Decidable (¬ b < a))

/-- One symbol of a serialized byte stream. The gob wire format is
abstracted: a `Token` stands for a run of bytes, keeping the properties
the store relies on (the stream is self-describing and injective on the
values it supports). -/
inductive Token
  | nat (n : Nat)
  | ch (c : Char)
deriving DecidableEq, Repr

abbrev Bytes := List Token

/-- A gob-encodable (or, for `vChan`, non-encodable) Go value handed to
`Put` as the `interface\x7b\x7d` argument. `vChan` stands for the values
`encoding/gob` refuses to encode (channels, functions). -/
inductive GoValue
  | vInt (n : Int)
  | vStr (s : String)
  | vBool (b : Bool)
  | vChan
deriving DecidableEq, Repr

/-- The static type of a destination pointer passed to `Get`. -/
inductive GoType
  | tInt
  | tStr
  | tBool
  | tChan
deriving DecidableEq, Repr

def typeOf : GoValue → GoType
  | .vInt _ => .tInt
  | .vStr _ => .tStr
  | .vBool _ => .tBool
  | .vChan => .tChan

/-- Models `gob.NewEncoder(&buf).Encode(value)`: produces the serialized
stream, or fails (`none`) on a value gob cannot encode. -/
def gobEncode : GoValue → Option Bytes
  | .vInt n => some [.nat 0, .nat (if n < 0 then 1 else 0), .nat n.natAbs]
  | .vStr s => some (.nat 1 :: s.data.map Token.ch)
  | .vBool b => some [.nat 2, .nat (if b then 1 else 0)]
  | .vChan => none

def tokensToChars : List Token → Option (List Char)
  | [] => some []
  | .ch c :: rest => (tokensToChars rest).map (c :: ·)
  | .nat _ :: _ => none

/-- Models `gob.NewDecoder(bytes.NewReader(v)).Decode(...)`: recovers the
value described by the stream, or fails on a malformed stream. -/
def gobDecode : Bytes → Option GoValue
  | [.nat 0, .nat 0, .nat m] => some (.vInt (Int.ofNat m))
  | [.nat 0, .nat 1, .nat m] => some (.vInt (-(Int.ofNat m)))
  | .nat 1 :: rest => (tokensToChars rest).map (fun cs => .vStr (String.mk cs))
  | [.nat 2, .nat 0] => some (.vBool false)
  | [.nat 2, .nat 1] => some (.vBool true)
  | _ => none

/-- One (key, serialized value) pair of a bucket. -/
abbrev Entry := String × Bytes

/-- A BoltDB bucket: its entries in ascending key order. -/
abbrev Bucket := List Entry

/-- Models `c.Seek([]byte(key))` on a bucket cursor: BoltDB returns the
first entry whose key is ≥ the sought key, or nil past the end. -/
def seek : Bucket → String → Option Entry
  | [], _ => none
  | e :: rest, key => if key ≤ e.1 then some e else seek rest key

/-- Exact-match lookup (first entry whose key equals `key`); the reference
point the Seek-then-compare pattern is measured against. -/
def lookupKey : Bucket → String → Option Entry
  | [], _ => none
  | e :: rest, key => if e.1 = key then some e else lookupKey rest key

/-- Models `Bucket.Put` inside the write transaction: ordered insert,
overwriting the entry when the key is already present. -/
def bucketPut : Bucket → String → Bytes → Bucket
  | [], k, v => [(k, v)]
  | e :: rest, k, v =>
    if k < e.1 then (k, v) :: e :: rest
    else if k = e.1 then (k, v) :: rest
    else e :: bucketPut rest k v

/-- Models `c.Delete()` after a successful exact-match Seek: removes the
entry carrying the key. -/
def removeKey : Bucket → String → Bucket
  | [], _ => []
  | e :: rest, k => if e.1 = k then rest else e :: removeKey rest k

/-- Models `tx.Bucket([]byte(bucket))`: `none` when the bucket does not
exist (BoltDB returns a nil pointer). -/
def getBucket : List (String × Bucket) → String → Option Bucket
  | [], _ => none
  | e :: rest, b => if e.1 = b then some e.2 else getBucket rest b

/-- Replaces the contents of the named bucket (the committed effect of a
write transaction touching that bucket). -/
def setBucket : List (String × Bucket) → String → Bucket → List (String × Bucket)
  | [], _, _ => []
  | e :: rest, b, l => if e.1 = b then (b, l) :: rest else e :: setBucket rest b l

/-- Models `tx.CreateBucketIfNotExists`: no-op when present, otherwise the
bucket is created empty. -/
def addBucket (s : List (String × Bucket)) (b : String) : List (String × Bucket) :=
  match getBucket s b with
  | some _ => s
  | none => s ++ [(b, [])]

/-- The key value store: the committed state of the BoltDB file, one entry
list per named bucket. -/
structure KVStore where
  buckets : List (String × Bucket)
deriving DecidableEq, Repr

/-- `AddBucket` creates a new bucket if it does not exist (engine-level
I/O errors are not modelled; the returned error is then always nil). -/
def KVStore.AddBucket (kvs : KVStore) (bucket : String) : KVStore :=
  ⟨addBucket kvs.buckets bucket⟩

inductive PutResult
  | ok
  | badValue
  | errKeyRequired
  | panicNilBucket
deriving DecidableEq, Repr

/-- `Put` from kvstore.go: rejects a nil value with `ErrBadValue` before
any I/O; ensures the bucket exists (`AddBucket`); gob-encodes the value,
returning nil (`ok` here) WITHOUT writing when encoding fails; otherwise
writes the entry in an `Update` transaction. BoltDB's `Bucket.Put` returns
`ErrKeyRequired` for an empty key, aborting that transaction (the bucket
creation has already been committed by `AddBucket`). -/
def KVStore.Put (kvs : KVStore) (bucket key : String) (value : Option GoValue) :
    PutResult × KVStore :=
  match value with
  | none => (.badValue, kvs)
  | some v =>
    let s1 := (kvs.AddBucket bucket).buckets
    match gobEncode v with
    | none => (.ok, ⟨s1⟩)
    | some bys =>
      if key = "" then (.errKeyRequired, ⟨s1⟩)
      else
        match getBucket s1 bucket with
        | none => (.panicNilBucket, ⟨s1⟩)
        | some l => (.ok, ⟨setBucket s1 bucket (bucketPut l key bys)⟩)

inductive GetResult
  | ok (v : Option GoValue)
  | notFound
  | decodeError
  | panicNilBucket
deriving DecidableEq, Repr

/-- `Get` from kvstore.go: opens a cursor on the bucket (dereferencing a
nil pointer when the bucket does not exist), Seeks to the key, compares
the returned key exactly, and gob-decodes the stored bytes. `value` is
the destination: `none` models a nil destination (gob `Decode(nil)` reads
the stream and discards the value), `some t` a pointer of static type
`t` (a shape mismatch is a decode error). BoltDB hands back a nil value
only for nested sub-buckets, which this store never creates, so the
`v == nil` early return of the source is unreachable and not modelled. -/
def KVStore.Get (kvs : KVStore) (bucket key : String) (value : Option GoType) :
    GetResult :=
  match getBucket kvs.buckets bucket with
  | none => .panicNilBucket
  | some l =>
    match seek l key with
    | none => .notFound
    | some e =>
      if e.1 ≠ key then .notFound
      else
        match gobDecode e.2 with
        | none => .decodeError
        | some gv =>
          match value with
          | none => .ok none
          | some t => if typeOf gv = t then .ok (some gv) else .decodeError

inductive DeleteResult
  | ok
  | notFound
  | panicNilBucket
deriving DecidableEq, Repr

/-- `Delete` from kvstore.go: cursor on the bucket (nil dereference when
the bucket does not exist), Seek, exact key comparison, and `c.Delete()`
on a match, all in one `Update` transaction. -/
def KVStore.Delete (kvs : KVStore) (bucket key : String) :
    DeleteResult × KVStore :=
  match getBucket kvs.buckets bucket with
  | none => (.panicNilBucket, kvs)
  | some l =>
    match seek l key with
    | none => (.notFound, kvs)
    | some e =>
      if e.1 ≠ key then (.notFound, kvs)
      else (.ok, ⟨setBucket kvs.buckets bucket (removeKey l key)⟩)

/-- Bucket entries are in strictly ascending key order (intrinsic to the
B-tree engine). -/
def SortedBucket (l : Bucket) : Prop :=
  l.Pairwise (fun a b => a.1 < b.1)

/-- Every reachable bucket is sorted and holds only streams written by a
successful gob encode, hence decodable. -/
def bucketWF (l : Bucket) : Prop :=
  SortedBucket l ∧ ∀ e ∈ l, (gobDecode e.2).isSome

/-- Every bucket of the store is well-formed. Holds for every store built
from the empty store by the API (see the preservation lemmas). -/
def KVStore.WF (s : KVStore) : Prop :=
  ∀ p ∈ s.buckets, bucketWF p.2


instance (l : Bucket) : Decidable (SortedBucket l) := by
  unfold SortedBucket
  infer_instance

instance (l : Bucket) : Decidable (bucketWF l) := by
  unfold bucketWF
  infer_instance

instance (s : KVStore) : Decidable s.WF := by
  unfold KVStore.WF
  infer_instance

/-- `cleanKeys` from the poll loop source: removes every dedup record
whose age (`now.Sub` of its last-seen time) strictly exceeds `maxTime`.
Instants and durations are modelled as integers; `conf.keys` (a
`map[string]time.Time`) is the entry list, `conf.maxTime` and the sampled
`time.Now()` are passed explicitly since the surrounding `Config` is
process state. Deleting from a Go map during `range` is well defined and
each live entry is visited once, so the sweep is a filter. -/
def cleanKeys (keys : List (String × Int)) (now maxTime : Int) :
    List (String × Int) :=
  keys.filter (fun e => !decide (now - e.2 > maxTime))

/-- Modelled from the spec: the repository file declaring the `Paste`
record (and its `Download`/`Process` methods) is not under src; the spec
requires only "a sequence of records with at least an identifier field",
so a candidate item is its opaque identifier string. -/
structure Paste where
  key : String
deriving DecidableEq, Repr

/-- What the HTTP layer hands to `get`: `netError` models a non-nil error
from `http.Get`; otherwise a status code and a body, where `none` for the
body models a read error from `ioutil.ReadAll`. -/
inductive FetchResult
  | netError
  | response (status : Nat) (body : Option String)
deriving DecidableEq, Repr

namespace Scrape

/-- `get` from the poll loop source: logs and returns the empty byte
slice when the request errors, when the status is not 200, or when the
body cannot be read; otherwise returns the body. -/
def get : FetchResult → String
  | .netError => ""
  | .response status body =>
    if status ≠ 200 then ""
    else
      match body with
      | none => ""
      | some b => b

/-- `scrape` from the poll loop source, parameterized by the behaviour of
`json.Unmarshal` into `[]*Paste` (`none` models a non-nil error; the
documented stdlib behaviour on the empty input, "unexpected end of JSON
input", is the hypothesis `unmarshal "" = none` where needed). Returns
how many pastes are handed to `Download`/`Process` this cycle; on a parse
error the cycle logs and returns having processed none. The function is
total: every cycle returns normally. -/
def scrape (unmarshal : String → Option (List Paste)) (r : FetchResult) : Nat :=
  match unmarshal (get r) with
  | none => 0
  | some pastes => pastes.length

end Scrape

theorem tokensToChars_map_ch (cs : List Char) :
    tokensToChars (cs.map Token.ch) = some cs := by
  induction cs with
  | nil => rfl
  | cons c cs ih => simp [tokensToChars, ih]

/-- The codec round-trips: decoding a successfully encoded value recovers
the value (gob streams are self-describing). -/
theorem gobDecode_gobEncode {v : GoValue} {bs : Bytes}
    (h : gobEncode v = some bs) : gobDecode bs = some v := by
  cases v with
  | vInt n =>
    simp only [gobEncode, Option.some.injEq] at h
    subst h
    by_cases hn : n < 0
    · have h1 : (Int.ofNat n.natAbs) = -n := by
        rw [Int.ofNat_eq_natCast]
        omega
      simp [gobDecode, hn, h1, abs_of_neg hn]
    · have h1 : (Int.ofNat n.natAbs) = n := by
        rw [Int.ofNat_eq_natCast]
        omega
      simp [gobDecode, hn, h1, le_of_not_lt hn]
  | vStr s =>
    simp only [gobEncode, Option.some.injEq] at h
    subst h
    simp [gobDecode, tokensToChars_map_ch]
  | vBool b =>
    simp only [gobEncode, Option.some.injEq] at h
    subst h
    cases b <;> rfl
  | vChan => simp [gobEncode] at h

/-! ### Cursor lemmas: Seek-then-compare equals exact lookup on a sorted bucket -/

theorem lookupKey_eq_none (l : Bucket) (k : String)
    (h : ∀ e ∈ l, e.1 ≠ k) : lookupKey l k = none := by
  induction l with
  | nil => rfl
  | cons a l ih =>
    rw [lookupKey, if_neg (h a (List.mem_cons_self a l))]
    exact ih (fun e he => h e (List.mem_cons_of_mem a he))

theorem lookupKey_some_mem {l : Bucket} {k : String} {e : Entry}
    (h : lookupKey l k = some e) : e ∈ l ∧ e.1 = k := by
  induction l with
  | nil => cases h
  | cons a l ih =>
    rw [lookupKey] at h
    by_cases h1 : a.1 = k
    · rw [if_pos h1] at h
      simp only [Option.some.injEq] at h
      subst h
      exact ⟨List.mem_cons_self a l, h1⟩
    · rw [if_neg h1] at h
      rcases ih h with ⟨hm, hk⟩
      exact ⟨List.mem_cons_of_mem a hm, hk⟩

theorem seek_exact (l : Bucket) (k : String) (hs : SortedBucket l) :
    (match seek l k with
      | some e => if e.1 = k then some e else none
      | none => none) = lookupKey l k := by
  induction l with
  | nil => rfl
  | cons a l ih =>
    rcases List.pairwise_cons.mp hs with ⟨ha, hl⟩
    by_cases hka : k ≤ a.1
    · rw [seek, if_pos hka]
      by_cases heq : a.1 = k
      · simp [lookupKey, heq]
      · have hk : k < a.1 := lt_of_le_of_ne hka (fun h => heq h.symm)
        have h2 : lookupKey l k = none :=
          lookupKey_eq_none l k
            (fun e he => Ne.symm (ne_of_lt (lt_trans hk (ha e he))))
        simp [lookupKey, heq, h2]
    · have hak : a.1 < k := lt_of_not_le hka
      rw [seek, if_neg hka, lookupKey, if_neg (ne_of_lt hak)]
      exact ih hl

theorem seek_of_lookupKey_none {l : Bucket} {k : String} (hs : SortedBucket l)
    (h : lookupKey l k = none) :
    seek l k = none ∨ ∃ e, seek l k = some e ∧ e.1 ≠ k := by
  have hx := seek_exact l k hs
  rw [h] at hx
  cases hse : seek l k with
  | none => exact Or.inl rfl
  | some e =>
    refine Or.inr ⟨e, rfl, ?_⟩
    rw [hse] at hx
    intro hek
    simp [hek] at hx

theorem seek_of_lookupKey_some {l : Bucket} {k : String} {e : Entry}
    (hs : SortedBucket l) (h : lookupKey l k = some e) :
    seek l k = some e ∧ e.1 = k := by
  have hx := seek_exact l k hs
  rw [h] at hx
  have hek : e.1 = k := (lookupKey_some_mem h).2
  cases hse : seek l k with
  | none => rw [hse] at hx; cases hx
  | some e2 =>
    rw [hse] at hx
    by_cases h2 : e2.1 = k
    · simp only [h2, if_pos, Option.some.injEq] at hx
      exact ⟨by rw [hx], hek⟩
    · simp [h2] at hx

/-! ### Bucket write lemmas -/

theorem mem_bucketPut {l : Bucket} {k : String} {v : Bytes} {e : Entry}
    (h : e ∈ bucketPut l k v) : e = (k, v) ∨ e ∈ l := by
  induction l with
  | nil =>
    rw [bucketPut] at h
    exact Or.inl (by simpa using h)
  | cons a l ih =>
    rw [bucketPut] at h
    by_cases h1 : k < a.1
    · rw [if_pos h1] at h
      exact List.mem_cons.mp h
    · rw [if_neg h1] at h
      by_cases h2 : k = a.1
      · rw [if_pos h2] at h
        rcases List.mem_cons.mp h with h3 | h3
        · exact Or.inl h3
        · exact Or.inr (List.mem_cons_of_mem a h3)
      · rw [if_neg h2] at h
        rcases List.mem_cons.mp h with h3 | h3
        · exact Or.inr (by rw [h3]; exact List.mem_cons_self a l)
        · rcases ih h3 with h4 | h4
          · exact Or.inl h4
          · exact Or.inr (List.mem_cons_of_mem a h4)

theorem sorted_bucketPut {l : Bucket} (k : String) (v : Bytes)
    (hs : SortedBucket l) : SortedBucket (bucketPut l k v) := by
  induction l with
  | nil =>
    rw [bucketPut]
    exact List.pairwise_singleton _ _
  | cons a l ih =>
    rcases List.pairwise_cons.mp hs with ⟨ha, hl⟩
    rw [bucketPut]
    by_cases h1 : k < a.1
    · rw [if_pos h1]
      refine List.pairwise_cons.mpr ⟨?_, hs⟩
      intro e he
      rcases List.mem_cons.mp he with h | h
      · rw [h]; exact h1
      · exact lt_trans h1 (ha e h)
    · rw [if_neg h1]
      by_cases h2 : k = a.1
      · rw [if_pos h2]
        refine List.pairwise_cons.mpr ⟨?_, hl⟩
        intro e he
        rw [h2]
        exact ha e he
      · rw [if_neg h2]
        have hak : a.1 < k :=
          lt_of_le_of_ne (le_of_not_lt h1) (fun h => h2 h.symm)
        refine List.pairwise_cons.mpr ⟨?_, ih hl⟩
        intro e he
        rcases mem_bucketPut he with h3 | h3
        · rw [h3]; exact hak
        · exact ha e h3

theorem lookupKey_bucketPut_self (l : Bucket) (k : String) (v : Bytes) :
    lookupKey (bucketPut l k v) k = some (k, v) := by
  induction l with
  | nil => rw [bucketPut, lookupKey, if_pos rfl]
  | cons a l ih =>
    rw [bucketPut]
    by_cases h1 : k < a.1
    · rw [if_pos h1, lookupKey, if_pos rfl]
    · rw [if_neg h1]
      by_cases h2 : k = a.1
      · rw [if_pos h2, lookupKey, if_pos rfl]
      · rw [if_neg h2, lookupKey, if_neg (fun h : a.1 = k => h2 h.symm)]
        exact ih

theorem lookupKey_bucketPut_ne (l : Bucket) {k k' : String} (v : Bytes)
    (hne : k' ≠ k) : lookupKey (bucketPut l k v) k' = lookupKey l k' := by
  have hkk : ¬((k, v).1 = k') := fun h => hne h.symm
  induction l with
  | nil => simp [bucketPut, lookupKey, hkk]
  | cons a l ih =>
    rw [bucketPut]
    by_cases h1 : k < a.1
    · rw [if_pos h1, lookupKey, if_neg hkk]
    · rw [if_neg h1]
      by_cases h2 : k = a.1
      · rw [if_pos h2]
        rw [lookupKey, if_neg hkk, lookupKey,
          if_neg (fun h : a.1 = k' => hne (h ▸ h2.symm ▸ rfl))]
      · rw [if_neg h2]
        simp only [lookupKey]
        by_cases h3 : a.1 = k'
        · rw [if_pos h3, if_pos h3]
        · rw [if_neg h3, if_neg h3]
          exact ih

/-! ### Bucket delete lemmas -/

theorem mem_removeKey {l : Bucket} {k : String} {e : Entry}
    (h : e ∈ removeKey l k) : e ∈ l := by
  induction l with
  | nil => cases h
  | cons a l ih =>
    rw [removeKey] at h
    by_cases h1 : a.1 = k
    · rw [if_pos h1] at h
      exact List.mem_cons_of_mem a h
    · rw [if_neg h1] at h
      rcases List.mem_cons.mp h with h2 | h2
      · rw [h2]; exact List.mem_cons_self a l
      · exact List.mem_cons_of_mem a (ih h2)

theorem sorted_removeKey {l : Bucket} (k : String)
    (hs : SortedBucket l) : SortedBucket (removeKey l k) := by
  induction l with
  | nil => exact hs
  | cons a l ih =>
    rcases List.pairwise_cons.mp hs with ⟨ha, hl⟩
    rw [removeKey]
    by_cases h1 : a.1 = k
    · rw [if_pos h1]; exact hl
    · rw [if_neg h1]
      refine List.pairwise_cons.mpr ⟨?_, ih hl⟩
      intro e he
      exact ha e (mem_removeKey he)

theorem lookupKey_removeKey_self {l : Bucket} (k : String)
    (hs : SortedBucket l) : lookupKey (removeKey l k) k = none := by
  induction l with
  | nil => rfl
  | cons a l ih =>
    rcases List.pairwise_cons.mp hs with ⟨ha, hl⟩
    rw [removeKey]
    by_cases h1 : a.1 = k
    · rw [if_pos h1]
      refine lookupKey_eq_none l k (fun e he => ?_)
      have h2 : a.1 < e.1 := ha e he
      rw [h1] at h2
      exact Ne.symm (ne_of_lt h2)
    · rw [if_neg h1, lookupKey, if_neg h1]
      exact ih hl

theorem lookupKey_removeKey_ne (l : Bucket) {k k' : String} (hne : k' ≠ k) :
    lookupKey (removeKey l k) k' = lookupKey l k' := by
  induction l with
  | nil => rfl
  | cons a l ih =>
    rw [removeKey]
    by_cases h1 : a.1 = k
    · rw [if_pos h1, lookupKey,
        if_neg (fun h : a.1 = k' => hne (h ▸ h1 ▸ rfl))]
    · rw [if_neg h1]
      simp only [lookupKey]
      by_cases h2 : a.1 = k'
      · rw [if_pos h2, if_pos h2]
      · rw [if_neg h2, if_neg h2]
        exact ih

/-! ### Store-level bucket table lemmas -/

theorem getBucket_mem {s : List (String × Bucket)} {b : String} {l : Bucket}
    (h : getBucket s b = some l) : (b, l) ∈ s := by
  induction s with
  | nil => cases h
  | cons a s ih =>
    rw [getBucket] at h
    by_cases h1 : a.1 = b
    · rw [if_pos h1] at h
      simp only [Option.some.injEq] at h
      have h2 : (b, l) = a := by rw [← h1, ← h]
      rw [h2]
      exact List.mem_cons_self a s
    · rw [if_neg h1] at h
      exact List.mem_cons_of_mem a (ih h)

theorem mem_setBucket {s : List (String × Bucket)} {b : String} {l : Bucket}
    {e : String × Bucket} (h : e ∈ setBucket s b l) : e = (b, l) ∨ e ∈ s := by
  induction s with
  | nil => cases h
  | cons a s ih =>
    rw [setBucket] at h
    by_cases h1 : a.1 = b
    · rw [if_pos h1] at h
      rcases List.mem_cons.mp h with h2 | h2
      · exact Or.inl h2
      · exact Or.inr (List.mem_cons_of_mem a h2)
    · rw [if_neg h1] at h
      rcases List.mem_cons.mp h with h2 | h2
      · exact Or.inr (by rw [h2]; exact List.mem_cons_self a s)
      · rcases ih h2 with h3 | h3
        · exact Or.inl h3
        · exact Or.inr (List.mem_cons_of_mem a h3)

theorem getBucket_setBucket_self {s : List (String × Bucket)} {b : String}
    {l0 : Bucket} (h : getBucket s b = some l0) (l : Bucket) :
    getBucket (setBucket s b l) b = some l := by
  induction s with
  | nil => cases h
  | cons a s ih =>
    rw [setBucket]
    by_cases h1 : a.1 = b
    · rw [if_pos h1, getBucket, if_pos rfl]
    · rw [getBucket, if_neg h1] at h
      rw [if_neg h1, getBucket, if_neg h1]
      exact ih h

theorem getBucket_setBucket_ne {s : List (String × Bucket)} {b b' : String}
    (l : Bucket) (hne : b' ≠ b) :
    getBucket (setBucket s b l) b' = getBucket s b' := by
  induction s with
  | nil => rfl
  | cons a s ih =>
    rw [setBucket]
    by_cases h1 : a.1 = b
    · rw [if_pos h1]
      rw [getBucket, if_neg (fun h : (b, l).1 = b' => hne h.symm),
        getBucket, if_neg (fun h : a.1 = b' => hne (h.symm.trans h1))]
    · rw [if_neg h1]
      simp only [getBucket]
      by_cases h2 : a.1 = b'
      · rw [if_pos h2, if_pos h2]
      · rw [if_neg h2, if_neg h2]
        exact ih

theorem getBucket_append {s : List (String × Bucket)} {b : String} (l : Bucket)
    (h : getBucket s b = none) : getBucket (s ++ [(b, l)]) b = some l := by
  induction s with
  | nil => rw [List.nil_append, getBucket, if_pos rfl]
  | cons a s ih =>
    rw [getBucket] at h
    by_cases h1 : a.1 = b
    · rw [if_pos h1] at h
      cases h
    · rw [if_neg h1] at h
      rw [List.cons_append, getBucket, if_neg h1]
      exact ih h

theorem getBucket_append_ne (s : List (String × Bucket)) {b b' : String}
    (l : Bucket) (hne : b' ≠ b) :
    getBucket (s ++ [(b, l)]) b' = getBucket s b' := by
  induction s with
  | nil =>
    have h1 : ¬((b, l).1 = b') := fun h => hne h.symm
    simp [getBucket, h1]
  | cons a s ih =>
    rw [List.cons_append]
    simp only [getBucket]
    by_cases h2 : a.1 = b'
    · rw [if_pos h2, if_pos h2]
    · rw [if_neg h2, if_neg h2]
      exact ih

theorem getBucket_addBucket_self (s : List (String × Bucket)) (b : String) :
    getBucket (addBucket s b) b = some ((getBucket s b).getD []) := by
  rw [addBucket]
  cases h : getBucket s b with
  | some l => simp [h]
  | none => simp [getBucket_append [] h]

theorem getBucket_addBucket_ne (s : List (String × Bucket)) {b b' : String}
    (hne : b' ≠ b) : getBucket (addBucket s b) b' = getBucket s b' := by
  rw [addBucket]
  cases h : getBucket s b with
  | some l => rfl
  | none => exact getBucket_append_ne s [] hne

theorem mem_addBucket {s : List (String × Bucket)} {b : String}
    {e : String × Bucket} (h : e ∈ addBucket s b) : e ∈ s ∨ e = (b, []) := by
  rw [addBucket] at h
  cases hg : getBucket s b with
  | some l =>
    rw [hg] at h
    exact Or.inl h
  | none =>
    rw [hg] at h
    rcases List.mem_append.mp h with h1 | h1
    · exact Or.inl h1
    · exact Or.inr (by simpa using h1)

/-! ### Well-formedness preservation -/

theorem wf_getBucket {s : KVStore} (hwf : s.WF) {b : String} {l : Bucket}
    (h : getBucket s.buckets b = some l) : bucketWF l :=
  hwf (b, l) (getBucket_mem h)

theorem WF_addBucket {s : KVStore} (hwf : s.WF) (b : String) :
    KVStore.WF ⟨addBucket s.buckets b⟩ := by
  intro p hp
  rcases mem_addBucket hp with h | h
  · exact hwf p h
  · rw [h]
    exact ⟨List.Pairwise.nil, fun e he => absurd he (List.not_mem_nil e)⟩

theorem WF_setBucket {s : KVStore} (hwf : s.WF) (b : String) {l : Bucket}
    (hl : bucketWF l) : KVStore.WF ⟨setBucket s.buckets b l⟩ := by
  intro p hp
  rcases mem_setBucket hp with h | h
  · rw [h]
    exact hl
  · exact hwf p h

theorem bucketWF_bucketPut {l : Bucket} {k : String} {v : Bytes}
    (hl : bucketWF l) (hv : (gobDecode v).isSome) : bucketWF (bucketPut l k v) := by
  refine ⟨sorted_bucketPut k v hl.1, ?_⟩
  intro e he
  rcases mem_bucketPut he with h | h
  · rw [h]
    exact hv
  · exact hl.2 e h

theorem bucketWF_removeKey {l : Bucket} (k : String) (hl : bucketWF l) :
    bucketWF (removeKey l k) :=
  ⟨sorted_removeKey k hl.1, fun e he => hl.2 e (mem_removeKey he)⟩

/-! ### Operation characterizations -/

theorem Put_none_eq (s : KVStore) (b k : String) :
    s.Put b k none = (.badValue, s) := rfl

theorem Put_encodeFail_eq {s : KVStore} (b k : String) {v : GoValue}
    (henc : gobEncode v = none) :
    s.Put b k (some v) = (.ok, ⟨addBucket s.buckets b⟩) := by
  simp only [KVStore.Put, KVStore.AddBucket, henc]

theorem Put_some_eq {s : KVStore} (b : String) {k : String} {v : GoValue}
    {bys : Bytes} (hk : k ≠ "") (henc : gobEncode v = some bys) :
    s.Put b k (some v) =
      (.ok, ⟨setBucket (addBucket s.buckets b) b
        (bucketPut ((getBucket s.buckets b).getD []) k bys)⟩) := by
  simp only [KVStore.Put, KVStore.AddBucket, henc, if_neg hk,
    getBucket_addBucket_self]

theorem Put_emptyKey_eq {s : KVStore} (b : String) {v : GoValue} {bys : Bytes}
    (henc : gobEncode v = some bys) :
    s.Put b "" (some v) = (.errKeyRequired, ⟨addBucket s.buckets b⟩) := by
  simp [KVStore.Put, KVStore.AddBucket, henc]

theorem Get_nilBucket {s : KVStore} {b : String}
    (h : getBucket s.buckets b = none) (k : String) (t : Option GoType) :
    s.Get b k t = .panicNilBucket := by
  simp only [KVStore.Get, h]

theorem Get_notFound_of_absent {s : KVStore} (hwf : s.WF) {b : String}
    {l : Bucket} (hb : getBucket s.buckets b = some l) {k : String}
    (habs : lookupKey l k = none) (t : Option GoType) :
    s.Get b k t = .notFound := by
  rcases seek_of_lookupKey_none (wf_getBucket hwf hb).1 habs with h | ⟨e, he, hne⟩
  · simp [KVStore.Get, hb, h]
  · simp [KVStore.Get, hb, he, hne]

theorem Get_found {s : KVStore} (hwf : s.WF) {b : String} {l : Bucket}
    {k : String} {e : Entry} (hb : getBucket s.buckets b = some l)
    (hk : lookupKey l k = some e) :
    ∃ gv, gobDecode e.2 = some gv ∧
      s.Get b k none = .ok none ∧
      ∀ t, s.Get b k (some t) =
        (if typeOf gv = t then .ok (some gv) else .decodeError) := by
  rcases seek_of_lookupKey_some (wf_getBucket hwf hb).1 hk with ⟨hse, hek⟩
  have hmem : e ∈ l := (lookupKey_some_mem hk).1
  rcases Option.isSome_iff_exists.mp ((wf_getBucket hwf hb).2 e hmem)
    with ⟨gv, hgv⟩
  refine ⟨gv, hgv, ?_, ?_⟩
  · simp [KVStore.Get, hb, hse, hek, hgv]
  · intro t
    simp [KVStore.Get, hb, hse, hek, hgv]

theorem Delete_nilBucket {s : KVStore} {b : String}
    (h : getBucket s.buckets b = none) (k : String) :
    s.Delete b k = (.panicNilBucket, s) := by
  simp only [KVStore.Delete, h]

theorem Delete_notFound_of_absent {s : KVStore} (hwf : s.WF) {b : String}
    {l : Bucket} (hb : getBucket s.buckets b = some l) {k : String}
    (habs : lookupKey l k = none) :
    s.Delete b k = (.notFound, s) := by
  rcases seek_of_lookupKey_none (wf_getBucket hwf hb).1 habs with h | ⟨e, he, hne⟩
  · simp [KVStore.Delete, hb, h]
  · simp [KVStore.Delete, hb, he, hne]

theorem Delete_found {s : KVStore} (hwf : s.WF) {b : String} {l : Bucket}
    {k : String} {e : Entry} (hb : getBucket s.buckets b = some l)
    (hk : lookupKey l k = some e) :
    s.Delete b k = (.ok, ⟨setBucket s.buckets b (removeKey l k)⟩) := by
  rcases seek_of_lookupKey_some (wf_getBucket hwf hb).1 hk with ⟨hse, hek⟩
  simp [KVStore.Delete, hb, hse, hek]

theorem bucketWF_getD {s : KVStore} (hwf : s.WF) (b : String) :
    bucketWF ((getBucket s.buckets b).getD []) := by
  cases h : getBucket s.buckets b with
  | none =>
    exact ⟨List.Pairwise.nil, fun e he => absurd he (List.not_mem_nil e)⟩
  | some l =>
    simpa using wf_getBucket hwf h

theorem Put_WF {s : KVStore} (hwf : s.WF) (b k : String) (v : Option GoValue) :
    ((s.Put b k v).2).WF := by
  cases v with
  | none =>
    rw [Put_none_eq]
    exact hwf
  | some gv =>
    cases henc : gobEncode gv with
    | none =>
      rw [Put_encodeFail_eq b k henc]
      exact WF_addBucket hwf b
    | some bys =>
      by_cases hk : k = ""
      · subst hk
        rw [Put_emptyKey_eq b henc]
        exact WF_addBucket hwf b
      · rw [Put_some_eq b hk henc]
        apply WF_setBucket (WF_addBucket hwf b) b
        apply bucketWF_bucketPut (bucketWF_getD hwf b)
        rw [gobDecode_gobEncode henc]
        rfl

theorem Delete_WF {s : KVStore} (hwf : s.WF) (b k : String) :
    ((s.Delete b k).2).WF := by
  cases hb : getBucket s.buckets b with
  | none =>
    rw [Delete_nilBucket hb]
    exact hwf
  | some l =>
    cases hk : lookupKey l k with
    | none =>
      rw [Delete_notFound_of_absent hwf hb hk]
      exact hwf
    | some e =>
      rw [Delete_found hwf hb hk]
      exact WF_setBucket hwf b (bucketWF_removeKey k (wf_getBucket hwf hb))

/-! ### Claims -/

/-- C1: the claim asserts Put-then-Get round-trips for EVERY key,
including the empty string (as the source's own doc comment promises).
It fails at the empty key: BoltDB's `Bucket.Put` rejects an empty key
with `ErrKeyRequired`, so `Put("b", "", 42)` returns a non-nil error and
stores nothing, and the following `Get("b", "", &dest)` returns NotFound
instead of a nil error with dest = 42. -/
theorem c1_empty_key_roundtrip_fails :
    (KVStore.Put ⟨[]⟩ "b" "" (some (.vInt 42))).1 = .errKeyRequired ∧
    (KVStore.Put ⟨[]⟩ "b" "" (some (.vInt 42))).1 ≠ .ok ∧
    ((KVStore.Put ⟨[]⟩ "b" "" (some (.vInt 42))).2).Get "b" "" (some .tInt)
      = .notFound := by decide

/-- C2 counterexample: on the empty store the bucket "a" was never
created, and `Get("a", "k")` dereferences the nil bucket pointer returned
by `tx.Bucket` (a runtime panic) instead of returning NotFound; so does
`Delete("a", "k")`. -/
theorem c2_missing_bucket_panics :
    KVStore.Get ⟨[]⟩ "a" "k" none = .panicNilBucket ∧
    GetResult.panicNilBucket ≠ GetResult.notFound ∧
    (KVStore.Delete ⟨[]⟩ "a" "k").1 = .panicNilBucket ∧
    DeleteResult.panicNilBucket ≠ DeleteResult.notFound := by decide

/-- C2 (amended): for a bucket/key pair never written, if the bucket
exists then `Get` returns NotFound and `Delete` returns NotFound and
leaves the store unchanged — in particular a key written only in bucket
"a" is NotFound in any other existing bucket (bucket isolation); if the
bucket itself was never created, `Get` and `Delete` instead dereference a
nil bucket pointer (a panic), not NotFound. -/
theorem c2_absent_key_notFound (s : KVStore) (b k : String) (t : Option GoType)
    (hwf : s.WF) :
    (getBucket s.buckets b = none →
      s.Get b k t = .panicNilBucket ∧ (s.Delete b k).1 = .panicNilBucket) ∧
    (∀ l, getBucket s.buckets b = some l → lookupKey l k = none →
      s.Get b k t = .notFound ∧ s.Delete b k = (.notFound, s)) := by
  constructor
  · intro h
    refine ⟨Get_nilBucket h k t, ?_⟩
    rw [Delete_nilBucket h k]
  · intro l hb habs
    exact ⟨Get_notFound_of_absent hwf hb habs t,
      Delete_notFound_of_absent hwf hb habs⟩

theorem c2_absent_key_notFound_witness :
    (KVStore.WF ⟨[("b", [])]⟩) ∧
    ((getBucket [("b", [])] "a" = none →
        KVStore.Get ⟨[("b", [])]⟩ "a" "k" none = .panicNilBucket ∧
        (KVStore.Delete ⟨[("b", [])]⟩ "a" "k").1 = .panicNilBucket) ∧
      (∀ l, getBucket [("b", [])] "a" = some l → lookupKey l "k" = none →
        KVStore.Get ⟨[("b", [])]⟩ "a" "k" none = .notFound ∧
        KVStore.Delete ⟨[("b", [])]⟩ "a" "k" = (.notFound, ⟨[("b", [])]⟩))) :=
  ⟨by decide, c2_absent_key_notFound ⟨[("b", [])]⟩ "a" "k" none (by decide)⟩

/-- C3: `Put(b, k, nil)` returns BadValue from the very first statement
of `Put` — before `AddBucket`, before encoding, before any transaction —
and hands back the store unchanged, so any key that was NotFound before
is still NotFound after. -/
theorem c3_nil_value_rejected (s : KVStore) (b k : String) (t : Option GoType)
    (h : s.Get b k t = .notFound) :
    s.Put b k none = (.badValue, s) ∧
    ((s.Put b k none).2).Get b k t = .notFound :=
  ⟨rfl, h⟩

theorem c3_nil_value_rejected_witness :
    (KVStore.Get ⟨[("b", [])]⟩ "b" "k" none = .notFound) ∧
    (KVStore.Put ⟨[("b", [])]⟩ "b" "k" none = (.badValue, ⟨[("b", [])]⟩) ∧
      ((KVStore.Put ⟨[("b", [])]⟩ "b" "k" none).2).Get "b" "k" none
        = .notFound) :=
  ⟨by decide, c3_nil_value_rejected ⟨[("b", [])]⟩ "b" "k" none (by decide)⟩

/-- C4 counterexample: the claim says a Put whose gob encoding fails
executes no write transaction and leaves the store unchanged. In fact
`AddBucket` has already run its own write transaction before the encode
attempt: on the empty store, `Put("b", "k", ch)` (a non-encodable value)
reports success AND changes the store by creating bucket "b". -/
theorem c4_encode_fail_creates_bucket :
    (KVStore.Put ⟨[]⟩ "b" "k" (some .vChan)).1 = .ok ∧
    (KVStore.Put ⟨[]⟩ "b" "k" (some .vChan)).2 ≠ (⟨[]⟩ : KVStore) := by decide

/-- C4 (amended): when the gob encoding of a non-nil value fails, `Put`
returns a nil error while writing no entry — the only state change is the
bucket creation already committed by `AddBucket` — so the caller cannot
distinguish the no-op from a successful persist, and if the key was
absent a subsequent `Get` for it still returns NotFound. -/
theorem c4_encode_fail_silent_noop (s : KVStore) (b k : String) (v : GoValue)
    (t : Option GoType) (hwf : s.WF) (henc : gobEncode v = none) :
    s.Put b k (some v) = (.ok, ⟨addBucket s.buckets b⟩) ∧
    (∀ l, getBucket (addBucket s.buckets b) b = some l → lookupKey l k = none →
      ((s.Put b k (some v)).2).Get b k t = .notFound) := by
  refine ⟨Put_encodeFail_eq b k henc, ?_⟩
  intro l hb habs
  rw [Put_encodeFail_eq b k henc]
  exact Get_notFound_of_absent (WF_addBucket hwf b) hb habs t

theorem c4_encode_fail_silent_noop_witness :
    (KVStore.WF ⟨[]⟩) ∧ (gobEncode .vChan = none) ∧
    (KVStore.Put ⟨[]⟩ "b" "k" (some .vChan) = (.ok, ⟨addBucket [] "b"⟩) ∧
      (∀ l, getBucket (addBucket [] "b") "b" = some l →
        lookupKey l "k" = none →
        ((KVStore.Put ⟨[]⟩ "b" "k" (some .vChan)).2).Get "b" "k" none
          = .notFound)) :=
  ⟨by decide, rfl,
    c4_encode_fail_silent_noop ⟨[]⟩ "b" "k" .vChan none (by decide) rfl⟩

/-- C5: for a key present in the store, `Get` with a nil destination
returns a nil error and delivers no value to the caller (gob
`Decode(nil)` discards the decoded stream), so it is a pure presence
test. -/
theorem c5_nil_destination_presence (s : KVStore) (b k : String) (l : Bucket)
    (e : Entry) (hwf : s.WF) (hb : getBucket s.buckets b = some l)
    (hk : lookupKey l k = some e) :
    s.Get b k none = .ok none := by
  obtain ⟨gv, _, h1, _⟩ := Get_found hwf hb hk
  exact h1

theorem c5_nil_destination_presence_witness :
    (KVStore.WF ⟨[("b", [("k", [.nat 2, .nat 1])])]⟩) ∧
    (getBucket [("b", [("k", [.nat 2, .nat 1])])] "b"
      = some [("k", [.nat 2, .nat 1])]) ∧
    (lookupKey [("k", [Token.nat 2, Token.nat 1])] "k"
      = some ("k", [.nat 2, .nat 1])) ∧
    (KVStore.Get ⟨[("b", [("k", [.nat 2, .nat 1])])]⟩ "b" "k" none
      = .ok none) :=
  ⟨by decide, by decide, by decide,
    c5_nil_destination_presence ⟨[("b", [("k", [.nat 2, .nat 1])])]⟩ "b" "k"
      [("k", [.nat 2, .nat 1])] ("k", [.nat 2, .nat 1])
      (by decide) (by decide) (by decide)⟩

/-- C6 counterexample: the claim quantifies over every key and every pair
of values. It fails (1) at the empty key — both Puts are rejected by
BoltDB with ErrKeyRequired and the final Get is NotFound, not V2 — and
(2) when V2 is a value gob cannot encode — the second Put silently writes
nothing and the final Get still returns V1, a residue of the first
write. -/
theorem c6_overwrite_cex :
    ((((KVStore.Put ⟨[]⟩ "b" "" (some (.vInt 1))).2).Put "b" ""
        (some (.vInt 2))).2.Get "b" "" (some .tInt) = .notFound) ∧
    ((((KVStore.Put ⟨[]⟩ "b" "k" (some (.vInt 1))).2).Put "b" "k"
        (some .vChan)).2.Get "b" "k" (some .tInt) = .ok (some (.vInt 1))) := by
  decide

/-- C6 (amended): for a nonempty key and a second value V2 that gob can
encode, Put(b,k,V1); Put(b,k,V2); Get(b,k,&dest) with dest of V2's type
yields exactly V2 — the last write wins and no trace of V1 remains
observable through Get. -/
theorem c6_last_write_wins (s : KVStore) (b k : String) (v1 v2 : GoValue)
    (bys : Bytes) (hwf : s.WF) (hk : k ≠ "") (henc : gobEncode v2 = some bys) :
    (((s.Put b k (some v1)).2).Put b k (some v2)).2.Get b k (some (typeOf v2))
      = .ok (some v2) := by
  have hwf1 : ((s.Put b k (some v1)).2).WF := Put_WF hwf b k (some v1)
  set s1 := (s.Put b k (some v1)).2 with hs1
  have hput : s1.Put b k (some v2) =
      (.ok, ⟨setBucket (addBucket s1.buckets b) b
        (bucketPut ((getBucket s1.buckets b).getD []) k bys)⟩) :=
    Put_some_eq b hk henc
  rw [hput]
  set l2 := bucketPut ((getBucket s1.buckets b).getD []) k bys with hl2
  have hwf2 : KVStore.WF ⟨setBucket (addBucket s1.buckets b) b l2⟩ := by
    apply WF_setBucket (s := ⟨addBucket s1.buckets b⟩) (WF_addBucket hwf1 b) b
    apply bucketWF_bucketPut (bucketWF_getD hwf1 b)
    rw [gobDecode_gobEncode henc]
    rfl
  have hb2 : getBucket (setBucket (addBucket s1.buckets b) b l2) b = some l2 :=
    getBucket_setBucket_self (getBucket_addBucket_self s1.buckets b) l2
  have hk2 : lookupKey l2 k = some (k, bys) :=
    lookupKey_bucketPut_self _ k bys
  obtain ⟨gv, hgv, _, hty⟩ :=
    Get_found (s := ⟨setBucket (addBucket s1.buckets b) b l2⟩) hwf2 hb2 hk2
  have hgveq : v2 = gv :=
    Option.some.inj ((gobDecode_gobEncode henc).symm.trans hgv)
  have h3 := hty (typeOf v2)
  rw [← hgveq] at h3
  simpa using h3

theorem c6_last_write_wins_witness :
    (KVStore.WF ⟨[]⟩) ∧ ("k" ≠ "") ∧
    (gobEncode (.vInt 7) = some [.nat 0, .nat 0, .nat 7]) ∧
    ((((KVStore.Put ⟨[]⟩ "b" "k" (some (.vBool false))).2).Put "b" "k"
        (some (.vInt 7))).2.Get "b" "k" (some (typeOf (.vInt 7)))
      = .ok (some (.vInt 7))) :=
  ⟨by decide, by decide, by decide,
    c6_last_write_wins ⟨[]⟩ "b" "k" (.vBool false) (.vInt 7)
      [.nat 0, .nat 0, .nat 7] (by decide) (by decide) (by decide)⟩

/-- C7: deleting a present key succeeds and removes it (the removal being
the committed effect of the write transaction), a following Get is
NotFound, and an immediately following second Delete returns NotFound
and leaves the store as it was after the first. -/
theorem c7_delete_twice (s : KVStore) (b k : String) (l : Bucket) (e : Entry)
    (hwf : s.WF) (hb : getBucket s.buckets b = some l)
    (hk : lookupKey l k = some e) :
    s.Delete b k = (.ok, ⟨setBucket s.buckets b (removeKey l k)⟩) ∧
    ((s.Delete b k).2).Get b k none = .notFound ∧
    ((s.Delete b k).2).Delete b k = (.notFound, (s.Delete b k).2) := by
  have hdel := Delete_found hwf hb hk
  have hwf2 : KVStore.WF ⟨setBucket s.buckets b (removeKey l k)⟩ :=
    WF_setBucket hwf b (bucketWF_removeKey k (wf_getBucket hwf hb))
  have hb2 : getBucket (setBucket s.buckets b (removeKey l k)) b
      = some (removeKey l k) :=
    getBucket_setBucket_self hb (removeKey l k)
  have habs : lookupKey (removeKey l k) k = none :=
    lookupKey_removeKey_self k (wf_getBucket hwf hb).1
  refine ⟨hdel, ?_, ?_⟩
  · rw [hdel]
    exact Get_notFound_of_absent hwf2 hb2 habs none
  · rw [hdel]
    exact Delete_notFound_of_absent hwf2 hb2 habs

theorem c7_delete_twice_witness :
    (KVStore.WF ⟨[("b", [("k", [.nat 2, .nat 0])])]⟩) ∧
    ((KVStore.Delete ⟨[("b", [("k", [.nat 2, .nat 0])])]⟩ "b" "k").1 = .ok) ∧
    ((KVStore.Delete ⟨[("b", [("k", [.nat 2, .nat 0])])]⟩ "b" "k").2.Delete
        "b" "k").1 = .notFound :=
  ⟨by decide,
    by rw [(c7_delete_twice ⟨[("b", [("k", [.nat 2, .nat 0])])]⟩ "b" "k"
        [("k", [.nat 2, .nat 0])] ("k", [.nat 2, .nat 0])
        (by decide) (by decide) (by decide)).1],
    by rw [(c7_delete_twice ⟨[("b", [("k", [.nat 2, .nat 0])])]⟩ "b" "k"
        [("k", [.nat 2, .nat 0])] ("k", [.nat 2, .nat 0])
        (by decide) (by decide) (by decide)).2.2]⟩

/-- C8: in an existing bucket, a key that is absent but is a proper
prefix of a stored key is still NotFound for both Get and Delete: the
cursor Seek may land on the longer key, and the exact string comparison
rejects it. -/
theorem c8_no_prefix_false_positive (s : KVStore) (b k k' : String)
    (l : Bucket) (t : Option GoType) (hwf : s.WF)
    (hb : getBucket s.buckets b = some l) (habs : lookupKey l k = none)
    (hmem : ∃ bs, (k', bs) ∈ l)
    (hpre : ∃ rest, rest ≠ "" ∧ k' = k ++ rest) :
    s.Get b k t = .notFound ∧ s.Delete b k = (.notFound, s) :=
  ⟨Get_notFound_of_absent hwf hb habs t,
    Delete_notFound_of_absent hwf hb habs⟩

theorem c8_no_prefix_false_positive_witness :
    (KVStore.WF ⟨[("b", [("ab", [.nat 2, .nat 1])])]⟩) ∧
    (lookupKey [("ab", [Token.nat 2, Token.nat 1])] "a" = none) ∧
    ("ab" = "a" ++ "b") ∧
    (KVStore.Get ⟨[("b", [("ab", [.nat 2, .nat 1])])]⟩ "b" "a" none
        = .notFound ∧
      KVStore.Delete ⟨[("b", [("ab", [.nat 2, .nat 1])])]⟩ "b" "a"
        = (.notFound, ⟨[("b", [("ab", [.nat 2, .nat 1])])]⟩)) :=
  ⟨by decide, by decide, by decide,
    c8_no_prefix_false_positive ⟨[("b", [("ab", [.nat 2, .nat 1])])]⟩ "b"
      "a" "ab" [("ab", [.nat 2, .nat 1])] none (by decide) (by decide)
      (by decide) ⟨[.nat 2, .nat 1], by decide⟩
      ⟨"b", by decide, by decide⟩⟩

/-- C9: an eviction pass keeps exactly the dedup records whose age is at
most the configured maximum (removal requires age strictly greater), and
in particular a record marked at t = 0 with maxAge = 10 survives a sweep
at now = 5 and is removed by a sweep at now = 11. -/
theorem c9_evict_ttl :
    (∀ (keys : List (String × Int)) (now maxTime : Int) (e : String × Int),
      e ∈ cleanKeys keys now maxTime ↔ e ∈ keys ∧ now - e.2 ≤ maxTime) ∧
    cleanKeys [("r", 0)] 5 10 = [("r", 0)] ∧
    cleanKeys [("r", 0)] 11 10 = [] := by
  refine ⟨?_, by decide, by decide⟩
  intro keys now maxTime e
  simp [cleanKeys, List.mem_filter, not_lt]

/-- C10: whenever the fetch fails — network error, non-200 status,
unreadable body, or a body the JSON decoder rejects — the poll cycle
processes zero items and returns normally; the hypothesis on `unmarshal`
is the documented stdlib behaviour that unmarshalling the empty input
(which `get` returns on every fetch failure) yields an error. -/
theorem c10_fetch_failures_skip_cycle
    (unmarshal : String → Option (List Paste)) (r : FetchResult)
    (hempty : unmarshal "" = none)
    (hfail : r = .netError ∨
      (∃ st body, r = .response st body ∧ st ≠ 200) ∨
      r = .response 200 none ∨
      (∃ bodyStr, r = .response 200 (some bodyStr) ∧
        unmarshal bodyStr = none)) :
    Scrape.scrape unmarshal r = 0 := by
  rcases hfail with h | ⟨st, body, rfl, hst⟩ | h | ⟨bodyStr, rfl, hparse⟩
  · subst h
    simp [Scrape.scrape, Scrape.get, hempty]
  · simp [Scrape.scrape, Scrape.get, hst, hempty]
  · subst h
    simp [Scrape.scrape, Scrape.get, hempty]
  · simp [Scrape.scrape, Scrape.get, hparse]

theorem c10_fetch_failures_skip_cycle_witness :
    ((fun _ : String => (none : Option (List Paste))) "" = none) ∧
    Scrape.scrape (fun _ => none) .netError = 0 :=
  ⟨rfl, c10_fetch_failures_skip_cycle (fun _ => none) .netError rfl
    (Or.inl rfl)⟩
